import Mathlib

/-!
Verification development for the QuickLendX invoice-financing protocol.

Part A embeds the frontend error-handling utilities
(ErrorPrevention.sanitizeInput, ErrorRecovery.retryOperation,
ErrorRateLimiter and ErrorAnalytics.trackError) as executable Lean
functions and proves their behavioural properties.

Part B models the Soroban core contract (invoice registry, bid book,
escrow manager, dispute handler, backup snapshotter) from the written
specification, since the Rust sources of the core are not part of this
tree, and proves the documented ledger properties over that model.
-/

namespace QuickLendX

/-! ### Part A.1: ErrorPrevention.sanitizeInput -/

/-- Character code of the less-than sign, one of the five characters
escaped by sanitizeInput. -/
def ltChar : Char := Char.ofNat 60

/-- Character code of the greater-than sign. -/
def gtChar : Char := Char.ofNat 62

/-- Character code of the double quote. -/
def quotChar : Char := Char.ofNat 34

/-- Character code of the single quote. -/
def aposChar : Char := Char.ofNat 39

/-- Character code of the forward slash. -/
def slashChar : Char := Char.ofNat 47

/-- The five characters that sanitizeInput removes. -/
def bannedChars : List Char := [ltChar, gtChar, quotChar, aposChar, slashChar]

/-- Global replacement of a single character by a replacement string,
modelling one JavaScript String.replace with a global single-character
regex. -/
def replaceAll (target : Char) (repl : List Char) : List Char → List Char
  | [] => []
  | c :: cs => (if c = target then repl else [c]) ++ replaceAll target repl cs

/-- Embeds ErrorPrevention.sanitizeInput: the five sequential global
replaces from the source, in source order. -/
def sanitizeChars (l : List Char) : List Char :=
  replaceAll slashChar ("&#x2F;".data)
    (replaceAll aposChar ("&#x27;".data)
      (replaceAll quotChar ("&quot;".data)
        (replaceAll gtChar ("&gt;".data)
          (replaceAll ltChar ("&lt;".data) l))))

/-- String-level wrapper of sanitizeChars, the shape of the source
function. -/
def sanitizeInput (s : String) : String := ⟨sanitizeChars s.data⟩

example : sanitizeInput "a<b" = "a&lt;b" := by decide
example : sanitizeInput "x/y" = "x&#x2F;y" := by decide
example : sanitizeInput (sanitizeInput "a<b/c") = sanitizeInput "a<b/c" := by decide

theorem mem_replaceAll {c t : Char} {r l : List Char}
    (h : c ∈ replaceAll t r l) : c ∈ r ∨ (c ∈ l ∧ c ≠ t) := by
  induction l with
  | nil => simp [replaceAll] at h
  | cons x xs ih =>
    simp only [replaceAll, List.mem_append] at h
    rcases h with h | h
    · split at h
      · exact Or.inl h
      · next hne =>
        rcases List.mem_singleton.mp h with rfl
        exact Or.inr ⟨List.mem_cons_self _ _, hne⟩
    · rcases ih h with h | ⟨h1, h2⟩
      · exact Or.inl h
      · exact Or.inr ⟨List.mem_cons_of_mem _ h1, h2⟩

theorem replaceAll_of_not_mem {t : Char} {r l : List Char} (h : t ∉ l) :
    replaceAll t r l = l := by
  induction l with
  | nil => rfl
  | cons x xs ih =>
    simp only [List.mem_cons, not_or] at h
    simp [replaceAll, Ne.symm h.1, ih h.2]

theorem mem_sanitizeChars_not_banned {c : Char} {l : List Char}
    (h : c ∈ sanitizeChars l) : c ∉ bannedChars := by
  unfold sanitizeChars at h
  rcases mem_replaceAll h with h | ⟨h, hs⟩
  · have hr : ∀ x ∈ "&#x2F;".data, x ∉ bannedChars := by decide
    exact hr c h
  rcases mem_replaceAll h with h | ⟨h, ha⟩
  · have hr : ∀ x ∈ "&#x27;".data, x ∉ bannedChars := by decide
    exact hr c h
  rcases mem_replaceAll h with h | ⟨h, hq⟩
  · have hr : ∀ x ∈ "&quot;".data, x ∉ bannedChars := by decide
    exact hr c h
  rcases mem_replaceAll h with h | ⟨h, hg⟩
  · have hr : ∀ x ∈ "&gt;".data, x ∉ bannedChars := by decide
    exact hr c h
  rcases mem_replaceAll h with h | ⟨h, hl⟩
  · have hr : ∀ x ∈ "&lt;".data, x ∉ bannedChars := by decide
    exact hr c h
  simp [bannedChars, hl, hg, hq, ha, hs]

theorem sanitizeChars_idem (l : List Char) :
    sanitizeChars (sanitizeChars l) = sanitizeChars l := by
  have h : ∀ t ∈ bannedChars, t ∉ sanitizeChars l := by
    intro t ht hmem
    exact mem_sanitizeChars_not_banned hmem ht
  have e1 : replaceAll ltChar ("&lt;".data) (sanitizeChars l) = sanitizeChars l :=
    replaceAll_of_not_mem (h ltChar (by decide))
  have e2 : replaceAll gtChar ("&gt;".data) (sanitizeChars l) = sanitizeChars l :=
    replaceAll_of_not_mem (h gtChar (by decide))
  have e3 : replaceAll quotChar ("&quot;".data) (sanitizeChars l) = sanitizeChars l :=
    replaceAll_of_not_mem (h quotChar (by decide))
  have e4 : replaceAll aposChar ("&#x27;".data) (sanitizeChars l) = sanitizeChars l :=
    replaceAll_of_not_mem (h aposChar (by decide))
  have e5 : replaceAll slashChar ("&#x2F;".data) (sanitizeChars l) = sanitizeChars l :=
    replaceAll_of_not_mem (h slashChar (by decide))
  show replaceAll slashChar ("&#x2F;".data)
      (replaceAll aposChar ("&#x27;".data)
        (replaceAll quotChar ("&quot;".data)
          (replaceAll gtChar ("&gt;".data)
            (replaceAll ltChar ("&lt;".data) (sanitizeChars l))))) = sanitizeChars l
  rw [e1, e2, e3, e4, e5]

/-- C9: for every input string, sanitizeInput returns a string containing
none of the characters less-than, greater-than, double quote, single
quote, or forward slash, and sanitizeInput is idempotent. -/
theorem sanitizeInput_spec (s : String) :
    ((sanitizeInput s).data.all (fun c => !(bannedChars.contains c)) = true) ∧
    sanitizeInput (sanitizeInput s) = sanitizeInput s := by
  constructor
  · rw [List.all_eq_true]
    intro c hc
    have hmem : c ∈ sanitizeChars s.data := by simpa [sanitizeInput] using hc
    have hnb := mem_sanitizeChars_not_banned hmem
    simpa using hnb
  · simp [sanitizeInput, sanitizeChars_idem]

/-! ### Part A.2: ErrorRecovery.retryOperation

The asynchronous operation is modelled as a function from the attempt
number (1-based, as in the source loop counter) to the outcome of that
invocation. The overall error type is Option E: some e models a thrown
error e, and none models the undefined lastError thrown when the loop
body never runs (maxRetries = 0, outside the documented domain). -/

/-- Loop body of ErrorRecovery.retryOperation: attempt is the source
loop counter, fuel counts the remaining iterations and keeps the
recursion structural. -/
def retryAux {E T : Type} (f : Nat → Except E T) (maxRetries : Nat) :
    Nat → Nat → Except (Option E) T
  | _, 0 => .error none
  | attempt, fuel + 1 =>
    match f attempt with
    | .ok v => .ok v
    | .error e =>
      if attempt = maxRetries then .error (some e)
      else retryAux f maxRetries (attempt + 1) fuel

/-- Embeds ErrorRecovery.retryOperation from the source: attempts run
from 1 up to maxRetries, the first success returns, the last failure is
rethrown. -/
def retryOperation {E T : Type} (f : Nat → Except E T) (maxRetries : Nat) :
    Except (Option E) T :=
  retryAux f maxRetries 1 maxRetries

/-- Number of invocations of the operation performed by the loop of
retryAux, computed alongside the result. -/
def retryCountAux {E T : Type} (f : Nat → Except E T) (maxRetries : Nat) :
    Nat → Nat → Nat
  | _, 0 => 0
  | attempt, fuel + 1 =>
    match f attempt with
    | .ok _ => 1
    | .error _ =>
      if attempt = maxRetries then 1
      else 1 + retryCountAux f maxRetries (attempt + 1) fuel

/-- Number of invocations of the operation performed by
retryOperation. -/
def retryCount {E T : Type} (f : Nat → Except E T) (maxRetries : Nat) : Nat :=
  retryCountAux f maxRetries 1 maxRetries

theorem retryCountAux_le {E T : Type} (f : Nat → Except E T) (maxRetries : Nat) :
    ∀ fuel attempt, retryCountAux f maxRetries attempt fuel ≤ fuel := by
  intro fuel
  induction fuel with
  | zero => intro attempt; simp [retryCountAux]
  | succ n ih =>
    intro attempt
    simp only [retryCountAux]
    split
    · omega
    · split
      · omega
      · have := ih (attempt + 1)
        omega

theorem retryAux_success {E T : Type} (f : Nat → Except E T) (maxRetries : Nat) :
    ∀ fuel attempt k v, attempt + fuel = maxRetries + 1 →
      attempt ≤ k → k ≤ maxRetries → f k = .ok v →
      (∀ j, attempt ≤ j → j < k → ∃ e, f j = .error e) →
      retryAux f maxRetries attempt fuel = .ok v ∧
      retryCountAux f maxRetries attempt fuel = k + 1 - attempt := by
  intro fuel
  induction fuel with
  | zero =>
    intro attempt k v hinv hak hkm hk hprev
    exfalso; omega
  | succ n ih =>
    intro attempt k v hinv hak hkm hk hprev
    rcases Nat.eq_or_lt_of_le hak with heq | hlt
    · subst heq
      refine ⟨by simp [retryAux, hk], ?_⟩
      have hc : retryCountAux f maxRetries attempt (n + 1) = 1 := by
        simp [retryCountAux, hk]
      omega
    · obtain ⟨e, he⟩ := hprev attempt le_rfl hlt
      have hnm : attempt ≠ maxRetries := by omega
      have hrec := ih (attempt + 1) k v (by omega) hlt hkm hk
        (fun j hj1 hj2 => hprev j (by omega) hj2)
      refine ⟨by simp [retryAux, he, hnm, hrec.1], ?_⟩
      have hc : retryCountAux f maxRetries attempt (n + 1)
          = 1 + retryCountAux f maxRetries (attempt + 1) n := by
        simp [retryCountAux, he, hnm]
      have h2c := hrec.2
      omega

theorem retryAux_allfail {E T : Type} (f : Nat → Except E T) (maxRetries : Nat) (e : E) :
    ∀ fuel attempt, attempt + fuel = maxRetries + 1 →
      attempt ≤ maxRetries →
      (∀ j, attempt ≤ j → j ≤ maxRetries → ∃ e2, f j = .error e2) →
      f maxRetries = .error e →
      retryAux f maxRetries attempt fuel = .error (some e) ∧
      retryCountAux f maxRetries attempt fuel = maxRetries + 1 - attempt := by
  intro fuel
  induction fuel with
  | zero =>
    intro attempt hinv ham hall hlast
    exfalso; omega
  | succ n ih =>
    intro attempt hinv ham hall hlast
    rcases Nat.eq_or_lt_of_le ham with heq | hlt
    · subst heq
      refine ⟨by simp [retryAux, hlast], ?_⟩
      have hc : retryCountAux f attempt attempt (n + 1) = 1 := by
        simp [retryCountAux, hlast]
      omega
    · obtain ⟨e2, he2⟩ := hall attempt le_rfl (le_of_lt hlt)
      have hnm : attempt ≠ maxRetries := by omega
      have hrec := ih (attempt + 1) (by omega) (by omega)
        (fun j hj1 hj2 => hall j (by omega) hj2) hlast
      refine ⟨by simp [retryAux, he2, hnm, hrec.1], ?_⟩
      have hc : retryCountAux f maxRetries attempt (n + 1)
          = 1 + retryCountAux f maxRetries (attempt + 1) n := by
        simp [retryCountAux, he2, hnm]
      have h2c := hrec.2
      omega

/-- C8: for maxRetries at least 1, retryOperation invokes the operation
at most maxRetries times, returns the value of the first invocation that
succeeds performing no further invocations, and if all maxRetries
invocations throw, it throws the error raised by the final
invocation. -/
theorem retryOperation_spec {E T : Type} (f : Nat → Except E T) (maxRetries : Nat)
    (h : 1 ≤ maxRetries) :
    retryCount f maxRetries ≤ maxRetries ∧
    (∀ k v, 1 ≤ k → k ≤ maxRetries → f k = .ok v →
      (∀ j, 1 ≤ j → j < k → ∃ e, f j = .error e) →
      retryOperation f maxRetries = .ok v ∧ retryCount f maxRetries = k) ∧
    (∀ e, (∀ j, 1 ≤ j → j ≤ maxRetries → ∃ e2, f j = .error e2) →
      f maxRetries = .error e →
      retryOperation f maxRetries = .error (some e) ∧
      retryCount f maxRetries = maxRetries) := by
  refine ⟨retryCountAux_le f maxRetries maxRetries 1, ?_, ?_⟩
  · intro k v h1 h2 hk hprev
    have hs := retryAux_success f maxRetries maxRetries 1 k v (by omega) h1 h2 hk hprev
    refine ⟨hs.1, ?_⟩
    have h2c := hs.2
    unfold retryCount
    omega
  · intro e hall hlast
    have hs := retryAux_allfail f maxRetries e maxRetries 1 (by omega) h hall hlast
    refine ⟨hs.1, ?_⟩
    have h2c := hs.2
    unfold retryCount
    omega

/-- Concrete operation for the retry witness: fails on the first
attempt, succeeds on the second. -/
def retryExample (n : Nat) : Except Nat Nat :=
  if n = 1 then .error 7 else .ok 42

/-- Witness for C8: at the concrete operation retryExample with 3
allowed attempts, the retry loop returns the second-attempt value 42
after exactly 2 invocations. -/
theorem retryOperation_spec_witness :
    retryOperation retryExample 3 = .ok 42 ∧ retryCount retryExample 3 = 2 :=
  (retryOperation_spec retryExample 3 (by decide)).2.1 2 42 (by decide) (by decide)
    rfl
    (fun j hj1 hj2 => by
      have hj : j = 1 := by omega
      subst hj
      exact ⟨7, rfl⟩)

/-! ### Part A.3: ErrorRateLimiter and ErrorAnalytics.trackError

The analytics entries are abstracted by a type parameter E standing for
ErrorAnalyticsData records; the Date.now() value observed by each call
and the rate-limiter key derived from the error are inputs of the
call. -/

/-- Rate-limiter threshold from the source (maxErrorsPerMinute). -/
def maxErrorsPerMinute : Nat := 10

/-- Rate-limiter window from the source, in milliseconds. -/
def resetInterval : Nat := 60000

/-- Capacity of the analytics error store from the source. -/
def maxErrorsToStore : Nat := 1000

/-- Lookup in the rate-limiter map, modelling Map.get on
errorCounts. -/
def rlLookup (m : List (String × Nat × Nat)) (k : String) : Option (Nat × Nat) :=
  (m.find? (fun p => p.1 = k)).map (fun p => p.2)

/-- Update of the rate-limiter map, modelling Map.set on
errorCounts. -/
def rlSet (m : List (String × Nat × Nat)) (k : String) (v : Nat × Nat) :
    List (String × Nat × Nat) :=
  if (m.find? (fun p => p.1 = k)).isSome then
    m.map (fun p => if p.1 = k then (k, v) else p)
  else m ++ [(k, v)]

/-- Embeds ErrorRateLimiter.isRateLimited: returns the decision together
with the updated counts map. -/
def isRateLimited (m : List (String × Nat × Nat)) (now : Nat) (key : String) :
    Bool × List (String × Nat × Nat) :=
  match rlLookup m key with
  | none => (false, rlSet m key (1, now + resetInterval))
  | some (count, resetTime) =>
    if resetTime < now then (false, rlSet m key (1, now + resetInterval))
    else if maxErrorsPerMinute ≤ count then (true, m)
    else (false, rlSet m key (count + 1, resetTime))

/-- State of the ErrorAnalytics singleton: the rate-limiter counts map
and the stored error list. -/
structure AnalyticsState (E : Type) where
  rl : List (String × Nat × Nat)
  errors : List E
  deriving Repr, DecidableEq

/-- One trackError call: observed clock value, rate-limiter key of the
error, and the analytics record. -/
structure TrackCall (E : Type) where
  now : Nat
  key : String
  err : E
  deriving Repr, DecidableEq

/-- Embeds ErrorAnalytics.trackError: consults the rate limiter, pushes
the error, and trims the store to the latest maxErrorsToStore
entries. -/
def trackError {E : Type} (s : AnalyticsState E) (c : TrackCall E) : AnalyticsState E :=
  let r := isRateLimited s.rl c.now c.key
  if r.1 then { s with rl := r.2 }
  else
    let es := s.errors ++ [c.err]
    { rl := r.2,
      errors :=
        if maxErrorsToStore < es.length then es.drop (es.length - maxErrorsToStore)
        else es }

/-- Folds a sequence of trackError calls over an analytics state. -/
def runTrack {E : Type} (s : AnalyticsState E) : List (TrackCall E) → AnalyticsState E
  | [] => s
  | c :: rest => runTrack (trackError s c) rest

/-- Sequence of errors that the rate limiter lets through, in call
order, starting from rate-limiter map m. -/
def trackedOf {E : Type} (m : List (String × Nat × Nat)) :
    List (TrackCall E) → List E
  | [] => []
  | c :: rest =>
    let r := isRateLimited m c.now c.key
    if r.1 then trackedOf r.2 rest
    else c.err :: trackedOf r.2 rest

/-- Suffix of the last n elements of a list. -/
def lastN {α : Type} (n : Nat) (l : List α) : List α := l.drop (l.length - n)

example :
    (runTrack (E := Nat) ⟨[], []⟩ [⟨5, "k", 1⟩, ⟨6, "k", 2⟩, ⟨7, "j", 3⟩]).errors
      = [1, 2, 3] := by decide

theorem lastN_append_one {α : Type} (n : Nat) (t : List α) (e : α) :
    (if n < (lastN n t ++ [e]).length
     then (lastN n t ++ [e]).drop ((lastN n t ++ [e]).length - n)
     else lastN n t ++ [e]) = lastN n (t ++ [e]) := by
  rcases Nat.lt_or_ge t.length n with hlt | hge
  · have h1 : t.length - n = 0 := by omega
    have h2 : lastN n t = t := by simp [lastN, h1]
    rw [h2]
    have h3 : ¬ n < (t ++ [e]).length := by
      simp only [List.length_append, List.length_singleton]
      omega
    rw [if_neg h3]
    have h5 : t.length + 1 - n = 0 := by omega
    simp [lastN, h5]
  · have hlen2 : (lastN n t).length = n := by
      simp only [lastN, List.length_drop]
      omega
    have hcond : n < (lastN n t ++ [e]).length := by
      simp only [List.length_append, List.length_singleton, hlen2]
      omega
    rw [if_pos hcond]
    have hdl : (lastN n t ++ [e]).length - n = 1 := by
      simp only [List.length_append, List.length_singleton, hlen2]
      omega
    rw [hdl]
    have hda : lastN n t ++ [e] = (t ++ [e]).drop (t.length - n) := by
      rw [show lastN n t = t.drop (t.length - n) from rfl,
        List.drop_append_of_le_length (by omega)]
    rw [hda, List.drop_drop]
    have harith : t.length - n + 1 = (t ++ [e]).length - n := by
      simp only [List.length_append, List.length_singleton]
      omega
    rw [show lastN n (t ++ [e]) = (t ++ [e]).drop ((t ++ [e]).length - n) from rfl,
      ← harith]

theorem trackError_limited {E : Type} {m m2 : List (String × Nat × Nat)}
    {c : TrackCall E} (errors : List E)
    (h : isRateLimited m c.now c.key = (true, m2)) :
    trackError ⟨m, errors⟩ c = ⟨m2, errors⟩ := by
  simp only [trackError]
  rw [h]
  simp

theorem trackError_passed {E : Type} {m m2 : List (String × Nat × Nat)}
    {c : TrackCall E} (errors : List E)
    (h : isRateLimited m c.now c.key = (false, m2)) :
    trackError ⟨m, errors⟩ c
      = ⟨m2,
          if maxErrorsToStore < (errors ++ [c.err]).length
          then (errors ++ [c.err]).drop ((errors ++ [c.err]).length - maxErrorsToStore)
          else errors ++ [c.err]⟩ := by
  simp only [trackError]
  rw [h]
  simp

theorem runTrack_errors {E : Type} :
    ∀ (inputs : List (TrackCall E)) (m : List (String × Nat × Nat)) (t : List E),
      (runTrack ⟨m, lastN maxErrorsToStore t⟩ inputs).errors
        = lastN maxErrorsToStore (t ++ trackedOf m inputs) := by
  intro inputs
  induction inputs with
  | nil => intro m t; simp [runTrack, trackedOf]
  | cons c rest ih =>
    intro m t
    simp only [runTrack, trackedOf]
    rcases hrl : isRateLimited m c.now c.key with ⟨limited, m2⟩
    cases limited with
    | true =>
      rw [trackError_limited _ hrl]
      simpa using ih m2 t
    | false =>
      rw [trackError_passed _ hrl, lastN_append_one]
      have h2 := ih m2 (t ++ [c.err])
      simp only [List.append_assoc, List.singleton_append] at h2 ⊢
      simpa using h2

/-- C10: after any sequence of trackError calls on an initially empty
analytics store, the stored error list has at most 1000 entries, and its
entries are exactly the most recently tracked non-rate-limited errors in
the order they were tracked. -/
theorem trackError_bounded_history {E : Type} (inputs : List (TrackCall E)) :
    (runTrack ⟨[], []⟩ inputs).errors
      = lastN maxErrorsToStore (trackedOf [] inputs) ∧
    (runTrack ⟨[], []⟩ inputs).errors.length ≤ maxErrorsToStore := by
  have h : (runTrack ⟨[], lastN maxErrorsToStore ([] : List E)⟩ inputs).errors
      = lastN maxErrorsToStore (([] : List E) ++ trackedOf [] inputs) :=
    runTrack_errors inputs [] []
  simp only [List.nil_append] at h
  have h0 : lastN maxErrorsToStore ([] : List E) = [] := by
    simp [lastN]
  rw [h0] at h
  refine ⟨h, ?_⟩
  rw [h]
  simp only [lastN, List.length_drop]
  omega

/-! ### Part B: the core ledger

The Rust sources of the Soroban core contract (invoice.rs, bid.rs,
payments.rs, verification.rs, audit.rs, backup.rs, errors.rs) are not
part of this tree; only their documentation is. The data model and
operations below are therefore modelled from the specification, and the
ledger claims are settled against this model. Addresses and 32-byte
identifiers are modelled as Nat. -/

/-- Modelled from the spec: the error kinds of the missing errors.rs,
as listed in the error-handling section. -/
inductive QuickLendXError where
  | InvalidAmount
  | InvalidDescription
  | InvoiceDueDateInvalid
  | InvoiceNotFound
  | BidNotFound
  | InvalidBidAmount
  | BidAlreadyAccepted
  | Unauthorized
  | NotVerifiedBusiness
  | EscrowAlreadyResolved
  | DuplicateDispute
  | InvalidStatusTransition
  | BackupNotFound
  | IntegrityViolation
  deriving DecidableEq, Repr

/-- Modelled from the spec: invoice lifecycle states of the missing
invoice.rs. -/
inductive InvoiceStatus where
  | Pending
  | Verified
  | Funded
  | Paid
  | Disputed
  | Defaulted
  deriving DecidableEq, Repr

/-- Modelled from the spec: bid states of the missing bid.rs. -/
inductive BidStatus where
  | Placed
  | Accepted
  | Rejected
  | Withdrawn
  deriving DecidableEq, Repr

/-- Modelled from the spec: escrow states of the missing payments.rs. -/
inductive EscrowStatus where
  | Created
  | Released
  | Refunded
  deriving DecidableEq, Repr

/-- Modelled from the spec: dispute states of the missing dispute
handling code. -/
inductive DisputeStatus where
  | None
  | UnderReview
  | Resolved
  deriving DecidableEq, Repr

/-- Modelled from the spec: dispute resolution outcomes. -/
inductive DisputeOutcome where
  | FavorBusiness
  | FavorInvestor
  deriving DecidableEq, Repr

/-- Modelled from the spec: invoice categories of the missing
invoice.rs. -/
inductive InvoiceCategory where
  | Services
  | Goods
  | Other
  deriving DecidableEq, Repr

/-- Modelled from the spec: resolution record of a dispute, the tagged
variant the design notes require. -/
inductive DisputeResolution where
  | Unresolved
  | Resolved (resolution : String) (resolvedBy : Nat) (resolvedAt : Nat)
  deriving DecidableEq, Repr

/-- Modelled from the spec: the Invoice record of the missing
invoice.rs. -/
structure Invoice where
  id : Nat
  business : Nat
  amount : Int
  currency : Nat
  dueDate : Nat
  description : String
  category : InvoiceCategory
  tags : List String
  status : InvoiceStatus
  createdAt : Nat
  deriving DecidableEq, Repr

/-- Modelled from the spec: the Bid record of the missing bid.rs. -/
structure Bid where
  id : Nat
  investor : Nat
  invoiceId : Nat
  bidAmount : Int
  expectedReturn : Int
  status : BidStatus
  createdAt : Nat
  deriving DecidableEq, Repr

/-- Modelled from the spec: the Escrow record of the missing
payments.rs. -/
structure Escrow where
  invoiceId : Nat
  investor : Nat
  heldAmount : Int
  status : EscrowStatus
  deriving DecidableEq, Repr

/-- Modelled from the spec: the Dispute record of the missing dispute
handling code. -/
structure Dispute where
  invoiceId : Nat
  raisedBy : Nat
  reason : String
  status : DisputeStatus
  resolution : DisputeResolution
  deriving DecidableEq, Repr

/-- Modelled from the spec: one audit-trail entry of the missing
audit.rs. -/
structure AuditEntry where
  seq : Nat
  operation : String
  actor : Nat
  invoice : Option Nat
  deriving DecidableEq, Repr

/-- Modelled from the spec: one token transfer performed through the
external token collaborator. -/
structure Transfer where
  source : Nat
  dest : Nat
  amount : Int
  currency : Nat
  deriving DecidableEq, Repr

/-- Modelled from the spec: the full point-in-time copy of the four
ledger collections taken by the missing backup.rs. -/
structure Snapshot where
  invoices : List Invoice
  bids : List Bid
  escrows : List Escrow
  disputes : List Dispute
  deriving DecidableEq, Repr

/-- Modelled from the spec: a stored backup of the missing
backup.rs. -/
structure Backup where
  id : Nat
  timestamp : Nat
  description : String
  snapshot : Snapshot
  deriving DecidableEq, Repr

/-- Modelled from the spec: the complete contract storage, with the
admin identity as explicit configuration, the four keyed collections,
KYC state, the audit trail, backups, the log of external token
transfers, and fresh-identifier counters. -/
structure LedgerState where
  admin : Nat
  invoices : List Invoice
  bids : List Bid
  escrows : List Escrow
  disputes : List Dispute
  kycPending : List (Nat × String)
  verified : List Nat
  audit : List AuditEntry
  backups : List Backup
  transfers : List Transfer
  nextInvoiceId : Nat
  nextBidId : Nat
  nextBackupId : Nat
  nextSeq : Nat
  deriving DecidableEq, Repr

/-- Account held by the contract itself, the source of escrow payouts
and refunds. -/
def contractAccount : Nat := 0

/-- Primary lookup of an invoice by id. -/
def findInvoice (s : LedgerState) (id : Nat) : Option Invoice :=
  s.invoices.find? (fun i => i.id = id)

/-- Primary lookup of a bid by id. -/
def findBid (s : LedgerState) (id : Nat) : Option Bid :=
  s.bids.find? (fun b => b.id = id)

/-- Lookup of the escrow of an invoice; the spec keys escrows by
invoice. -/
def findEscrow (s : LedgerState) (invoiceId : Nat) : Option Escrow :=
  s.escrows.find? (fun e => e.invoiceId = invoiceId)

/-- Lookup of a backup by id. -/
def findBackup (s : LedgerState) (id : Nat) : Option Backup :=
  s.backups.find? (fun b => b.id = id)

/-- Appends the single audit entry every successful mutating operation
produces, with the next global sequence number. -/
def appendAudit (s : LedgerState) (operation : String) (actor : Nat)
    (invoice : Option Nat) : LedgerState :=
  { s with audit := s.audit ++ [⟨s.nextSeq, operation, actor, invoice⟩],
           nextSeq := s.nextSeq + 1 }

/-- Rewrites the status of the invoice with the given id. -/
def setInvoiceStatus (s : LedgerState) (id : Nat) (st : InvoiceStatus) : LedgerState :=
  { s with invoices := s.invoices.map (fun i =>
      if i.id = id then { i with status := st } else i) }

/-- Rewrites the status of the escrow of the given invoice. -/
def setEscrowStatus (s : LedgerState) (invoiceId : Nat) (st : EscrowStatus) : LedgerState :=
  { s with escrows := s.escrows.map (fun e =>
      if e.invoiceId = invoiceId then { e with status := st } else e) }

/-- Records a call to the external token collaborator; in the spec the
transfer either fully succeeds or aborts the enclosing operation, so a
performed transfer is modelled as a log entry. -/
def doTransfer (s : LedgerState) (source dest : Nat) (amount : Int)
    (currency : Nat) : LedgerState :=
  { s with transfers := s.transfers ++ [⟨source, dest, amount, currency⟩] }

/-- Modelled from the spec: submit_kyc_application of the missing
verification.rs; idempotent re-submission overwrites the pending
record. -/
def submit_kyc_application (s : LedgerState) (business : Nat) (data : String) :
    Except QuickLendXError LedgerState :=
  .ok (appendAudit
    { s with kycPending := (business, data) :: s.kycPending.filter (fun p => p.1 ≠ business) }
    "KycSubmitted" business none)

/-- Modelled from the spec: verify_business of the missing
verification.rs; admin-only. -/
def verify_business (s : LedgerState) (caller business : Nat) :
    Except QuickLendXError LedgerState :=
  if caller ≠ s.admin then .error .Unauthorized
  else .ok (appendAudit
    { s with verified := business :: s.verified.filter (fun b => b ≠ business) }
    "BusinessVerified" caller none)

/-- Modelled from the spec: store_invoice of the missing invoice.rs,
with its validation order: amount, due date, description, verified
caller. -/
def store_invoice (s : LedgerState) (now business : Nat) (amount : Int)
    (currency dueDate : Nat) (description : String)
    (category : InvoiceCategory) (tags : List String) :
    Except QuickLendXError (LedgerState × Nat) :=
  if amount ≤ 0 then .error .InvalidAmount
  else if dueDate ≤ now then .error .InvoiceDueDateInvalid
  else if description = "" then .error .InvalidDescription
  else if business ∉ s.verified then .error .NotVerifiedBusiness
  else
    let id := s.nextInvoiceId
    let inv : Invoice :=
      ⟨id, business, amount, currency, dueDate, description, category, tags, .Pending, now⟩
    .ok (appendAudit { s with invoices := s.invoices ++ [inv], nextInvoiceId := id + 1 }
      "InvoiceCreated" business (some id), id)

/-- Modelled from the spec: the legal edges of the invoice status
machine of the missing invoice.rs. -/
def validTransition : InvoiceStatus → InvoiceStatus → Bool
  | .Pending, .Verified => true
  | .Verified, .Funded => true
  | .Funded, .Paid => true
  | .Funded, .Disputed => true
  | .Funded, .Defaulted => true
  | .Disputed, .Paid => true
  | .Disputed, .Defaulted => true
  | _, _ => false

/-- Modelled from the spec: update_invoice_status of the missing
invoice.rs; only legal machine edges are allowed. -/
def update_invoice_status (s : LedgerState) (id : Nat) (newStatus : InvoiceStatus) :
    Except QuickLendXError LedgerState :=
  match findInvoice s id with
  | none => .error .InvoiceNotFound
  | some inv =>
    if validTransition inv.status newStatus then
      .ok (appendAudit (setInvoiceStatus s id newStatus)
        "InvoiceStatusUpdated" inv.business (some id))
    else .error .InvalidStatusTransition

/-- Modelled from the spec: place_bid of the missing bid.rs; requires a
Verified invoice, a positive bid amount and an expected return at least
the bid amount. -/
def place_bid (s : LedgerState) (now investor invoiceId : Nat)
    (bidAmount expectedReturn : Int) :
    Except QuickLendXError (LedgerState × Nat) :=
  match findInvoice s invoiceId with
  | none => .error .InvoiceNotFound
  | some inv =>
    if inv.status ≠ .Verified then .error .InvalidStatusTransition
    else if bidAmount ≤ 0 ∨ expectedReturn < bidAmount then .error .InvalidBidAmount
    else
      let id := s.nextBidId
      let bid : Bid := ⟨id, investor, invoiceId, bidAmount, expectedReturn, .Placed, now⟩
      .ok (appendAudit { s with bids := s.bids ++ [bid], nextBidId := id + 1 }
        "BidPlaced" investor (some invoiceId), id)

/-- Modelled from the spec: create_escrow of the missing payments.rs;
internal operation, creates exactly one escrow per invoice and fails if
one already exists. -/
def create_escrow (s : LedgerState) (invoiceId investor : Nat) (amount : Int) :
    Except QuickLendXError LedgerState :=
  match findEscrow s invoiceId with
  | some _ => .error .BidAlreadyAccepted
  | none => .ok { s with escrows := ⟨invoiceId, investor, amount, .Created⟩ :: s.escrows }

/-- Modelled from the spec: accept_bid of the missing bid.rs; one
atomic composite: chosen bid Accepted, other Placed bids on the invoice
Rejected, invoice Funded, escrow created. -/
def accept_bid (s : LedgerState) (caller invoiceId bidId : Nat) :
    Except QuickLendXError LedgerState :=
  match findInvoice s invoiceId with
  | none => .error .InvoiceNotFound
  | some inv =>
    match findBid s bidId with
    | none => .error .BidNotFound
    | some bid =>
      if bid.invoiceId ≠ invoiceId then .error .BidNotFound
      else if caller ≠ inv.business then .error .Unauthorized
      else if inv.status ≠ .Verified then .error .BidAlreadyAccepted
      else if bid.status ≠ .Placed then .error .BidAlreadyAccepted
      else
        match create_escrow
            (setInvoiceStatus
              { s with bids := s.bids.map (fun b =>
                  if b.id = bidId then { b with status := .Accepted }
                  else if b.invoiceId = invoiceId ∧ b.status = .Placed then
                    { b with status := .Rejected }
                  else b) }
              invoiceId .Funded)
            invoiceId bid.investor bid.bidAmount with
        | .error e => .error e
        | .ok s3 => .ok (appendAudit s3 "BidAccepted" caller (some invoiceId))

/-- Modelled from the spec: withdraw_bid of the missing bid.rs;
permitted only while the bid is Placed. -/
def withdraw_bid (s : LedgerState) (investor bidId : Nat) :
    Except QuickLendXError LedgerState :=
  match findBid s bidId with
  | none => .error .BidNotFound
  | some bid =>
    if investor ≠ bid.investor then .error .Unauthorized
    else if bid.status ≠ .Placed then .error .BidAlreadyAccepted
    else .ok (appendAudit { s with bids := s.bids.map (fun b =>
      if b.id = bidId then { b with status := .Withdrawn } else b) }
      "BidWithdrawn" investor (some bid.invoiceId))

/-- Modelled from the spec: release_escrow_funds of the missing
payments.rs; checks the escrow status first, before any transfer, then
pays the business, marks the escrow Released and the invoice Paid. -/
def release_escrow_funds (s : LedgerState) (invoiceId : Nat) :
    Except QuickLendXError LedgerState :=
  match findEscrow s invoiceId with
  | none => .error .InvoiceNotFound
  | some esc =>
    if esc.status ≠ .Created then .error .EscrowAlreadyResolved
    else
      match findInvoice s invoiceId with
      | none => .error .InvoiceNotFound
      | some inv =>
        if inv.status ≠ .Funded ∧ inv.status ≠ .Disputed then .error .InvalidStatusTransition
        else
          .ok (appendAudit
            (setInvoiceStatus
              (setEscrowStatus
                (doTransfer s contractAccount inv.business esc.heldAmount inv.currency)
                invoiceId .Released)
              invoiceId .Paid)
            "EscrowReleased" inv.business (some invoiceId))

/-- Modelled from the spec: refund_escrow_funds of the missing
payments.rs; checks the escrow status first, before any transfer, then
refunds the investor, marks the escrow Refunded and the invoice
Defaulted. -/
def refund_escrow_funds (s : LedgerState) (invoiceId : Nat) :
    Except QuickLendXError LedgerState :=
  match findEscrow s invoiceId with
  | none => .error .InvoiceNotFound
  | some esc =>
    if esc.status ≠ .Created then .error .EscrowAlreadyResolved
    else
      match findInvoice s invoiceId with
      | none => .error .InvoiceNotFound
      | some inv =>
        if inv.status ≠ .Funded ∧ inv.status ≠ .Disputed then .error .InvalidStatusTransition
        else
          .ok (appendAudit
            (setInvoiceStatus
              (setEscrowStatus
                (doTransfer s contractAccount esc.investor esc.heldAmount inv.currency)
                invoiceId .Refunded)
              invoiceId .Defaulted)
            "EscrowRefunded" esc.investor (some invoiceId))

/-- Modelled from the spec: create_dispute of the missing dispute
handling code; raiser must be the business or the accepted investor,
invoice must be Funded, no open dispute may exist. -/
def create_dispute (s : LedgerState) (invoiceId raiser : Nat) (reason : String) :
    Except QuickLendXError LedgerState :=
  match findInvoice s invoiceId with
  | none => .error .InvoiceNotFound
  | some inv =>
    if raiser ≠ inv.business ∧ some raiser ≠ ((s.bids.find? (fun b =>
        decide (b.invoiceId = invoiceId ∧ b.status = .Accepted))).map
          (fun b => b.investor)) then .error .Unauthorized
    else if inv.status ≠ .Funded then .error .InvalidStatusTransition
    else if (s.disputes.find? (fun d =>
        decide (d.invoiceId = invoiceId ∧ d.status = .UnderReview))).isSome then
      .error .DuplicateDispute
    else
      .ok (appendAudit
        (setInvoiceStatus
          { s with disputes := ⟨invoiceId, raiser, reason, .UnderReview, .Unresolved⟩ :: s.disputes }
          invoiceId .Disputed)
        "DisputeCreated" raiser (some invoiceId))

/-- Records the resolution data on the open dispute of the invoice, the
first half of resolve_dispute. -/
def resolveDisputeRecord (s : LedgerState) (now caller invoiceId : Nat)
    (outcome : DisputeOutcome) : LedgerState :=
  { s with disputes := s.disputes.map (fun d =>
      if d.invoiceId = invoiceId ∧ d.status = .UnderReview then
        { d with status := .Resolved,
                 resolution := .Resolved
                   (match outcome with
                    | .FavorBusiness => "FavorBusiness"
                    | .FavorInvestor => "FavorInvestor") caller now }
      else d) }

/-- Modelled from the spec: resolve_dispute of the missing dispute
handling code; admin-only, records the resolution and drives escrow
release or refund. -/
def resolve_dispute (s : LedgerState) (now caller invoiceId : Nat)
    (outcome : DisputeOutcome) : Except QuickLendXError LedgerState :=
  if caller ≠ s.admin then .error .Unauthorized
  else
    match s.disputes.find? (fun d =>
        decide (d.invoiceId = invoiceId ∧ d.status = .UnderReview)) with
    | none => .error .InvoiceNotFound
    | some _ =>
      match outcome with
      | .FavorBusiness =>
        release_escrow_funds (resolveDisputeRecord s now caller invoiceId outcome) invoiceId
      | .FavorInvestor =>
        refund_escrow_funds (resolveDisputeRecord s now caller invoiceId outcome) invoiceId

/-- Snapshot of the four ledger collections. -/
def snapshotOf (s : LedgerState) : Snapshot := ⟨s.invoices, s.bids, s.escrows, s.disputes⟩

/-- Modelled from the spec: create_backup of the missing backup.rs;
takes a full consistent copy of the four collections under a fresh id
and never fails. -/
def create_backup (s : LedgerState) (now : Nat) (description : String) :
    LedgerState × Nat :=
  let id := s.nextBackupId
  (appendAudit
    { s with backups := ⟨id, now, description, snapshotOf s⟩ :: s.backups,
             nextBackupId := id + 1 }
    "BackupCreated" s.admin none, id)

/-- Modelled from the spec: restore of the missing backup.rs; replaces
the four collections atomically, or rejects unknown ids leaving state
untouched. -/
def restore (s : LedgerState) (backupId : Nat) : Except QuickLendXError LedgerState :=
  match findBackup s backupId with
  | none => .error .BackupNotFound
  | some b =>
    .ok (appendAudit
      { s with invoices := b.snapshot.invoices, bids := b.snapshot.bids,
               escrows := b.snapshot.escrows, disputes := b.snapshot.disputes }
      "BackupRestored" s.admin none)

/-- One external call to the ledger, for quantifying over arbitrary
sequences of mutations. -/
inductive Op where
  | submitKyc (business : Nat) (data : String)
  | verifyBusiness (caller business : Nat)
  | storeInvoice (now business : Nat) (amount : Int) (currency dueDate : Nat)
      (description : String) (category : InvoiceCategory) (tags : List String)
  | updateStatus (id : Nat) (newStatus : InvoiceStatus)
  | placeBid (now investor invoiceId : Nat) (bidAmount expectedReturn : Int)
  | acceptBid (caller invoiceId bidId : Nat)
  | withdrawBid (investor bidId : Nat)
  | releaseEscrow (invoiceId : Nat)
  | refundEscrow (invoiceId : Nat)
  | createDispute (invoiceId raiser : Nat) (reason : String)
  | resolveDispute (now caller invoiceId : Nat) (outcome : DisputeOutcome)
  | createBackup (now : Nat) (description : String)
  | restoreBackup (backupId : Nat)

/-- Result of a call as seen from outside: a failing call leaves the
state unchanged. -/
def commit (s : LedgerState) : Except QuickLendXError LedgerState → LedgerState
  | .ok t => t
  | .error _ => s

/-- Commit for operations that also return an identifier. -/
def commitPair (s : LedgerState) :
    Except QuickLendXError (LedgerState × Nat) → LedgerState
  | .ok t => t.1
  | .error _ => s

/-- State reached by one external call. -/
def applyOp (s : LedgerState) : Op → LedgerState
  | .submitKyc b d => commit s (submit_kyc_application s b d)
  | .verifyBusiness c b => commit s (verify_business s c b)
  | .storeInvoice now b amt cur due descr cat tags =>
      commitPair s (store_invoice s now b amt cur due descr cat tags)
  | .updateStatus id st => commit s (update_invoice_status s id st)
  | .placeBid now i invId amt ret => commitPair s (place_bid s now i invId amt ret)
  | .acceptBid c invId bidId => commit s (accept_bid s c invId bidId)
  | .withdrawBid i bidId => commit s (withdraw_bid s i bidId)
  | .releaseEscrow invId => commit s (release_escrow_funds s invId)
  | .refundEscrow invId => commit s (refund_escrow_funds s invId)
  | .createDispute invId r reason => commit s (create_dispute s invId r reason)
  | .resolveDispute now c invId o => commit s (resolve_dispute s now c invId o)
  | .createBackup now d => (create_backup s now d).1
  | .restoreBackup id => commit s (restore s id)

/-- Empty ledger with admin account 1 and fresh counters starting at
1. -/
def emptyLedger : LedgerState :=
  ⟨1, [], [], [], [], [], [], [], [], [], 1, 1, 1, 0⟩

/-- The documented end-to-end scenario up to funding: verify the
business, store an invoice, verify it, place a bid, accept the bid. -/
def sampleFunded : LedgerState :=
  [Op.verifyBusiness 1 10,
   Op.storeInvoice 100 10 10000 5 200 "invoice services" .Services [],
   Op.updateStatus 1 .Verified,
   Op.placeBid 101 20 1 9500 10500,
   Op.acceptBid 10 1 1].foldl applyOp emptyLedger

/-- The scenario continued by the escrow payout. -/
def sampleReleased : LedgerState := applyOp sampleFunded (.releaseEscrow 1)

example : (findInvoice sampleFunded 1).map (fun i => i.status) = some .Funded := by decide
example : (findEscrow sampleFunded 1).map (fun e => e.heldAmount) = some 9500 := by decide
example : (findEscrow sampleReleased 1).map (fun e => e.status) = some .Released := by decide
example : (findInvoice sampleReleased 1).map (fun i => i.status) = some .Paid := by decide
example : release_escrow_funds sampleReleased 1 = .error .EscrowAlreadyResolved := rfl
example : refund_escrow_funds sampleReleased 1 = .error .EscrowAlreadyResolved := rfl

/-! ### Lookup lemmas for the update helpers -/

theorem find_escrow_update (l : List Escrow) (invoiceId : Nat) (st : EscrowStatus) :
    (l.map (fun e => if e.invoiceId = invoiceId then { e with status := st } else e)).find?
        (fun e => e.invoiceId = invoiceId)
      = (l.find? (fun e => e.invoiceId = invoiceId)).map (fun e => { e with status := st }) := by
  induction l with
  | nil => rfl
  | cons e es ih =>
    by_cases he : e.invoiceId = invoiceId
    · simp [List.find?_cons, he]
    · simp [List.find?_cons, he, ih]

theorem find_invoice_update (l : List Invoice) (id : Nat) (st : InvoiceStatus) :
    (l.map (fun i => if i.id = id then { i with status := st } else i)).find?
        (fun i => i.id = id)
      = (l.find? (fun i => i.id = id)).map (fun i => { i with status := st }) := by
  induction l with
  | nil => rfl
  | cons i is ih =>
    by_cases hi : i.id = id
    · simp [List.find?_cons, hi]
    · simp [List.find?_cons, hi, ih]

theorem findEscrow_setEscrowStatus (s : LedgerState) (invoiceId : Nat) (st : EscrowStatus) :
    findEscrow (setEscrowStatus s invoiceId st) invoiceId
      = (findEscrow s invoiceId).map (fun e => { e with status := st }) :=
  find_escrow_update s.escrows invoiceId st

theorem findInvoice_setInvoiceStatus (s : LedgerState) (id : Nat) (st : InvoiceStatus) :
    findInvoice (setInvoiceStatus s id st) id
      = (findInvoice s id).map (fun i => { i with status := st }) :=
  find_invoice_update s.invoices id st

theorem findEscrow_appendAudit (s : LedgerState) (op : String) (a : Nat)
    (i : Option Nat) (id : Nat) : findEscrow (appendAudit s op a i) id = findEscrow s id := rfl

theorem findEscrow_setInvoiceStatus (s : LedgerState) (id : Nat) (st : InvoiceStatus)
    (id2 : Nat) : findEscrow (setInvoiceStatus s id st) id2 = findEscrow s id2 := rfl

theorem findEscrow_doTransfer (s : LedgerState) (src dst : Nat) (amt : Int)
    (cur : Nat) (id : Nat) : findEscrow (doTransfer s src dst amt cur) id = findEscrow s id := rfl

theorem findInvoice_appendAudit (s : LedgerState) (op : String) (a : Nat)
    (i : Option Nat) (id : Nat) : findInvoice (appendAudit s op a i) id = findInvoice s id := rfl

theorem findInvoice_setEscrowStatus (s : LedgerState) (invId : Nat) (st : EscrowStatus)
    (id : Nat) : findInvoice (setEscrowStatus s invId st) id = findInvoice s id := rfl

theorem findInvoice_doTransfer (s : LedgerState) (src dst : Nat) (amt : Int)
    (cur : Nat) (id : Nat) : findInvoice (doTransfer s src dst amt cur) id = findInvoice s id := rfl

/-! ### C1: escrow resolution happens at most once -/

theorem release_ok_escrow (s t : LedgerState) (invoiceId : Nat)
    (h : release_escrow_funds s invoiceId = .ok t) :
    ∃ esc, findEscrow t invoiceId = some esc ∧ esc.status = .Released := by
  unfold release_escrow_funds at h
  split at h
  · simp at h
  next esc hesc =>
    split at h
    · simp at h
    next hcreated =>
      split at h
      · simp at h
      next inv hinv =>
        split at h
        · simp at h
        next helig =>
          injection h with h
          subst h
          rw [findEscrow_appendAudit, findEscrow_setInvoiceStatus,
            findEscrow_setEscrowStatus, findEscrow_doTransfer, hesc]
          exact ⟨_, rfl, rfl⟩

theorem refund_ok_escrow (s t : LedgerState) (invoiceId : Nat)
    (h : refund_escrow_funds s invoiceId = .ok t) :
    ∃ esc, findEscrow t invoiceId = some esc ∧ esc.status = .Refunded := by
  unfold refund_escrow_funds at h
  split at h
  · simp at h
  next esc hesc =>
    split at h
    · simp at h
    next hcreated =>
      split at h
      · simp at h
      next inv hinv =>
        split at h
        · simp at h
        next helig =>
          injection h with h
          subst h
          rw [findEscrow_appendAudit, findEscrow_setInvoiceStatus,
            findEscrow_setEscrowStatus, findEscrow_doTransfer, hesc]
          exact ⟨_, rfl, rfl⟩

theorem release_not_created (s : LedgerState) (invoiceId : Nat) (esc : Escrow)
    (h1 : findEscrow s invoiceId = some esc) (h2 : esc.status ≠ .Created) :
    release_escrow_funds s invoiceId = .error .EscrowAlreadyResolved := by
  unfold release_escrow_funds
  rw [h1]
  simp [h2]

theorem refund_not_created (s : LedgerState) (invoiceId : Nat) (esc : Escrow)
    (h1 : findEscrow s invoiceId = some esc) (h2 : esc.status ≠ .Created) :
    refund_escrow_funds s invoiceId = .error .EscrowAlreadyResolved := by
  unfold refund_escrow_funds
  rw [h1]
  simp [h2]

/-- C1: once an escrow has been resolved by a successful release or
refund, any later call to either operation on that invoice fails with
EscrowAlreadyResolved, performs no token transfer, and leaves the whole
state (transfer log included) unchanged. -/
theorem escrow_single_resolution (s t : LedgerState) (invoiceId : Nat)
    (h : release_escrow_funds s invoiceId = .ok t ∨
         refund_escrow_funds s invoiceId = .ok t) :
    release_escrow_funds t invoiceId = .error .EscrowAlreadyResolved ∧
    refund_escrow_funds t invoiceId = .error .EscrowAlreadyResolved ∧
    applyOp t (.releaseEscrow invoiceId) = t ∧
    applyOp t (.refundEscrow invoiceId) = t := by
  have hesc : ∃ esc, findEscrow t invoiceId = some esc ∧ esc.status ≠ .Created := by
    rcases h with h | h
    · obtain ⟨esc, he, hst⟩ := release_ok_escrow s t invoiceId h
      exact ⟨esc, he, by rw [hst]; simp⟩
    · obtain ⟨esc, he, hst⟩ := refund_ok_escrow s t invoiceId h
      exact ⟨esc, he, by rw [hst]; simp⟩
  obtain ⟨esc, hfind, hne⟩ := hesc
  have hrel := release_not_created t invoiceId esc hfind hne
  have href := refund_not_created t invoiceId esc hfind hne
  exact ⟨hrel, href, by simp [applyOp, hrel, commit], by simp [applyOp, href, commit]⟩

/-- Witness for C1 at the concrete funded scenario: releasing the
escrow of invoice 1 makes both later finalization calls fail and leave
the state unchanged. -/
theorem escrow_single_resolution_witness :
    release_escrow_funds sampleReleased 1 = .error .EscrowAlreadyResolved ∧
    refund_escrow_funds sampleReleased 1 = .error .EscrowAlreadyResolved ∧
    applyOp sampleReleased (.releaseEscrow 1) = sampleReleased ∧
    applyOp sampleReleased (.refundEscrow 1) = sampleReleased :=
  escrow_single_resolution sampleFunded sampleReleased 1 (Or.inl rfl)


/-! ### C3: the invoice status machine -/

/-- Edges of the invoice status machine exactly as the claim lists
them. -/
def specStatusEdges : List (InvoiceStatus × InvoiceStatus) :=
  [(.Pending, .Verified), (.Verified, .Funded), (.Funded, .Paid),
   (.Funded, .Disputed), (.Disputed, .Paid), (.Disputed, .Defaulted),
   (.Funded, .Defaulted)]

theorem validTransition_mem (a b : InvoiceStatus) :
    validTransition a b = true ↔ (a, b) ∈ specStatusEdges := by
  cases a <;> cases b <;> decide

/-- C3: with the target invoice present, update_invoice_status succeeds
exactly when the pair of current and requested status is an edge of the
documented machine, any other request fails InvalidStatusTransition,
and the terminal states Paid and Defaulted have no outbound edges. -/
theorem update_invoice_status_spec (s : LedgerState) (id : Nat)
    (newStatus : InvoiceStatus) (inv : Invoice)
    (h : findInvoice s id = some inv) :
    ((∃ t, update_invoice_status s id newStatus = .ok t)
        ↔ (inv.status, newStatus) ∈ specStatusEdges) ∧
    ((inv.status, newStatus) ∉ specStatusEdges →
        update_invoice_status s id newStatus = .error .InvalidStatusTransition) ∧
    (∀ st, (InvoiceStatus.Paid, st) ∉ specStatusEdges ∧
           (InvoiceStatus.Defaulted, st) ∉ specStatusEdges) := by
  have hmachine : ∀ st : InvoiceStatus, (InvoiceStatus.Paid, st) ∉ specStatusEdges ∧
      (InvoiceStatus.Defaulted, st) ∉ specStatusEdges := by
    intro st; cases st <;> exact ⟨by decide, by decide⟩
  refine ⟨⟨?_, ?_⟩, ?_, hmachine⟩
  · rintro ⟨t, ht⟩
    unfold update_invoice_status at ht
    rw [h] at ht
    by_cases hv : validTransition inv.status newStatus = true
    · exact (validTransition_mem _ _).mp hv
    · simp [hv] at ht
  · intro hmem
    have hv := (validTransition_mem inv.status newStatus).mpr hmem
    refine ⟨appendAudit (setInvoiceStatus s id newStatus)
      "InvoiceStatusUpdated" inv.business (some id), ?_⟩
    unfold update_invoice_status
    rw [h]
    simp [hv]
  · intro hmem
    have hv : validTransition inv.status newStatus = false := by
      rcases Bool.eq_false_or_eq_true (validTransition inv.status newStatus) with ht2 | hf
      · exact absurd ((validTransition_mem _ _).mp ht2) hmem
      · exact hf
    unfold update_invoice_status
    rw [h]
    simp [hv]

/-- Funded invoice in a one-invoice ledger, for witnesses. -/
def sampleInvoice : Invoice :=
  ⟨1, 10, 10000, 5, 200, "invoice services", .Services, [], .Funded, 100⟩

/-- One-invoice ledger holding sampleInvoice. -/
def sampleStateC3 : LedgerState := { emptyLedger with invoices := [sampleInvoice] }

/-- Witness for C3 at the one-invoice ledger and the request Funded to
Paid. -/
theorem update_invoice_status_spec_witness :
    ((∃ t, update_invoice_status sampleStateC3 1 .Paid = .ok t)
        ↔ (sampleInvoice.status, InvoiceStatus.Paid) ∈ specStatusEdges) ∧
    ((sampleInvoice.status, InvoiceStatus.Paid) ∉ specStatusEdges →
        update_invoice_status sampleStateC3 1 .Paid = .error .InvalidStatusTransition) ∧
    (∀ st, (InvoiceStatus.Paid, st) ∉ specStatusEdges ∧
           (InvoiceStatus.Defaulted, st) ∉ specStatusEdges) :=
  update_invoice_status_spec sampleStateC3 1 .Paid sampleInvoice (by decide)

/-! ### C4 and C5: invoice creation validation -/

/-- C4: invoice creation demands a strictly future due date: every
successful creation was called with a due date after the current time,
and a request that passes the amount check but has a due date at or
before the current time fails with InvoiceDueDateInvalid and creates
nothing. -/
theorem store_invoice_due_date_spec (s : LedgerState) (now business : Nat)
    (amount : Int) (currency dueDate : Nat) (description : String)
    (category : InvoiceCategory) (tags : List String) :
    (∀ t id, store_invoice s now business amount currency dueDate description category tags
        = .ok (t, id) → now < dueDate) ∧
    (0 < amount → dueDate ≤ now →
      store_invoice s now business amount currency dueDate description category tags
        = .error .InvoiceDueDateInvalid ∧
      applyOp s (.storeInvoice now business amount currency dueDate description category tags)
        = s) := by
  constructor
  · intro t id h
    unfold store_invoice at h
    split at h
    · simp at h
    · split at h
      · simp at h
      · omega
  · intro hamt hdue
    have hna : ¬ amount ≤ 0 := by omega
    have h : store_invoice s now business amount currency dueDate description category tags
        = .error .InvoiceDueDateInvalid := by
      unfold store_invoice
      simp [hna, hdue]
    exact ⟨h, by simp [applyOp, h, commitPair]⟩

/-- Witness for C4 at a creation request whose due date equals the
current time. -/
theorem store_invoice_due_date_spec_witness :
    store_invoice emptyLedger 100 10 50 5 100 "services" .Services []
      = .error .InvoiceDueDateInvalid ∧
    applyOp emptyLedger (.storeInvoice 100 10 50 5 100 "services" .Services [])
      = emptyLedger :=
  (store_invoice_due_date_spec emptyLedger 100 10 50 5 100 "services" .Services []).2
    (by decide) (by decide)

/-- C5: the amount check at invoice creation accepts exactly the
positive integer amounts: a non-positive amount fails with
InvalidAmount and creates nothing, a positive amount never produces
InvalidAmount, and every stored invoice carries the positive amount of
its creation request. -/
theorem store_invoice_amount_spec (s : LedgerState) (now business : Nat)
    (amount : Int) (currency dueDate : Nat) (description : String)
    (category : InvoiceCategory) (tags : List String) :
    (amount ≤ 0 →
      store_invoice s now business amount currency dueDate description category tags
        = .error .InvalidAmount ∧
      applyOp s (.storeInvoice now business amount currency dueDate description category tags)
        = s) ∧
    (0 < amount →
      store_invoice s now business amount currency dueDate description category tags
        ≠ .error .InvalidAmount) ∧
    (∀ t id, store_invoice s now business amount currency dueDate description category tags
        = .ok (t, id) →
      ∃ inv, inv ∈ t.invoices ∧ inv.id = id ∧ inv.amount = amount ∧ 0 < inv.amount) := by
  refine ⟨?_, ?_, ?_⟩
  · intro hle
    have h : store_invoice s now business amount currency dueDate description category tags
        = .error .InvalidAmount := by
      unfold store_invoice
      simp [hle]
    exact ⟨h, by simp [applyOp, h, commitPair]⟩
  · intro hpos
    have hna : ¬ amount ≤ 0 := by omega
    unfold store_invoice
    simp only [hna, if_false]
    split
    · simp
    split
    · simp
    split
    · simp
    · simp
  · intro t id h
    unfold store_invoice at h
    split at h
    · simp at h
    split at h
    · simp at h
    split at h
    · simp at h
    split at h
    · simp at h
    simp only [Except.ok.injEq, Prod.mk.injEq] at h
    obtain ⟨ht, hid⟩ := h
    subst ht
    subst hid
    refine ⟨⟨s.nextInvoiceId, business, amount, currency, dueDate, description,
      category, tags, .Pending, now⟩, ?_, rfl, rfl, ?_⟩
    · simp [appendAudit]
    · show (0 : Int) < amount
      omega

/-- Witness for C5: a zero amount is rejected with InvalidAmount and a
positive amount passes the amount check. -/
theorem store_invoice_amount_spec_witness :
    store_invoice emptyLedger 100 10 0 5 200 "services" .Services []
      = .error .InvalidAmount ∧
    store_invoice emptyLedger 100 10 50 5 200 "services" .Services []
      ≠ .error .InvalidAmount :=
  ⟨((store_invoice_amount_spec emptyLedger 100 10 0 5 200 "services" .Services []).1
      (by decide)).1,
   (store_invoice_amount_spec emptyLedger 100 10 50 5 200 "services" .Services []).2.1
      (by decide)⟩

/-! ### C6: bid placement validation -/

/-- C6: with the target invoice present, place_bid on an invoice that
is not Verified fails with InvalidStatusTransition, a violation of the
amount conditions on a Verified invoice fails with InvalidBidAmount,
and every successful bid had a Verified invoice, a positive bid amount
and an expected return at least the bid amount. -/
theorem place_bid_spec (s : LedgerState) (now investor invoiceId : Nat)
    (bidAmount expectedReturn : Int) (inv : Invoice)
    (h : findInvoice s invoiceId = some inv) :
    (inv.status ≠ .Verified →
      place_bid s now investor invoiceId bidAmount expectedReturn
        = .error .InvalidStatusTransition) ∧
    (inv.status = .Verified → bidAmount ≤ 0 ∨ expectedReturn < bidAmount →
      place_bid s now investor invoiceId bidAmount expectedReturn
        = .error .InvalidBidAmount) ∧
    (∀ t id, place_bid s now investor invoiceId bidAmount expectedReturn = .ok (t, id) →
      inv.status = .Verified ∧ 0 < bidAmount ∧ bidAmount ≤ expectedReturn) := by
  refine ⟨?_, ?_, ?_⟩
  · intro hnv
    unfold place_bid
    rw [h]
    simp [hnv]
  · intro hv hbad
    unfold place_bid
    rw [h]
    simp [hv, hbad]
  · intro t id hok
    unfold place_bid at hok
    split at hok
    · simp_all
    next inv2 hinv2 =>
      rw [h] at hinv2
      injection hinv2 with hinv2e
      subst hinv2e
      split at hok
      · simp at hok
      split at hok
      · simp at hok
      next h1 h2 =>
        push_neg at h2
        exact ⟨not_not.mp h1, h2.1, h2.2⟩

/-- Verified invoice in a one-invoice ledger, for witnesses. -/
def sampleVerifiedInv : Invoice :=
  ⟨1, 10, 10000, 5, 200, "invoice services", .Services, [], .Verified, 100⟩

/-- One-invoice ledger holding sampleVerifiedInv. -/
def sampleVerifiedState : LedgerState := { emptyLedger with invoices := [sampleVerifiedInv] }

/-- Witness for C6: a zero bid amount on a Verified invoice fails with
InvalidBidAmount, and a bid on a non-Verified invoice fails with
InvalidStatusTransition. -/
theorem place_bid_spec_witness :
    place_bid sampleVerifiedState 101 20 1 0 10 = .error .InvalidBidAmount ∧
    place_bid sampleStateC3 101 20 1 9500 10500 = .error .InvalidStatusTransition :=
  ⟨(place_bid_spec sampleVerifiedState 101 20 1 0 10 sampleVerifiedInv (by decide)).2.1
      rfl (Or.inl (by decide)),
   (place_bid_spec sampleStateC3 101 20 1 9500 10500 sampleInvoice (by decide)).1
      (by decide)⟩


/-! ### C2: bid acceptance is one atomic composite -/

theorem accept_bid_not_verified (u : LedgerState) (c invId bi : Nat) (inv : Invoice)
    (h1 : findInvoice u invId = some inv) (h2 : inv.status ≠ .Verified) :
    ∃ e, accept_bid u c invId bi = .error e := by
  rcases hfb : findBid u bi with _ | bid
  · refine ⟨.BidNotFound, ?_⟩
    unfold accept_bid
    rw [h1, hfb]
  · by_cases hb : bid.invoiceId = invId
    · by_cases hc : c = inv.business
      · refine ⟨.BidAlreadyAccepted, ?_⟩
        unfold accept_bid
        rw [h1, hfb]
        simp [hb, hc, h2]
      · refine ⟨.Unauthorized, ?_⟩
        unfold accept_bid
        rw [h1, hfb]
        simp [hb, hc]
    · refine ⟨.BidNotFound, ?_⟩
      unfold accept_bid
      rw [h1, hfb]
      simp [hb]

/-- C2: a successful accept_bid makes the chosen bid Accepted, rejects
every other previously Placed bid on that invoice and leaves every
remaining bid untouched, moves the invoice to Funded, creates the
Created escrow holding the accepted bid amount for the winning
investor, a second accept_bid on the same invoice always fails, and a
failing accept_bid changes nothing. -/
theorem accept_bid_spec (s t : LedgerState) (caller invoiceId bidId : Nat)
    (h : accept_bid s caller invoiceId bidId = .ok t) :
    (∃ bid, findBid s bidId = some bid ∧ bid.invoiceId = invoiceId ∧
       bid.status = .Placed ∧
       { bid with status := BidStatus.Accepted } ∈ t.bids ∧
       findEscrow t invoiceId = some ⟨invoiceId, bid.investor, bid.bidAmount, .Created⟩) ∧
    (∀ b ∈ s.bids, b.id ≠ bidId → b.invoiceId = invoiceId → b.status = .Placed →
       { b with status := BidStatus.Rejected } ∈ t.bids) ∧
    (∀ b ∈ s.bids, b.id ≠ bidId → (b.invoiceId ≠ invoiceId ∨ b.status ≠ .Placed) →
       b ∈ t.bids) ∧
    (∃ inv, findInvoice s invoiceId = some inv ∧
       findInvoice t invoiceId = some { inv with status := InvoiceStatus.Funded }) ∧
    (∀ caller2 bidId2, ∃ e, accept_bid t caller2 invoiceId bidId2 = .error e) ∧
    (∀ (u : LedgerState) (c i bi : Nat) (e : QuickLendXError),
       accept_bid u c i bi = .error e → applyOp u (.acceptBid c i bi) = u) := by
  unfold accept_bid at h
  split at h
  · simp at h
  next inv hinv =>
    split at h
    · simp at h
    next bid hbid =>
      split at h
      · simp at h
      next hb1 =>
        split at h
        · simp at h
        next hb2 =>
          split at h
          · simp at h
          next hb3 =>
            split at h
            · simp at h
            next hb4 =>
              split at h
              · simp at h
              next s3 hce =>
                injection h with h
                subst h
                unfold create_escrow at hce
                split at hce
                · simp at hce
                next hnoesc =>
                  injection hce with hce
                  subst hce
                  have hb1e : bid.invoiceId = invoiceId := not_not.mp hb1
                  have hb4e : bid.status = .Placed := not_not.mp hb4
                  have hbmem : bid ∈ s.bids := by
                    unfold findBid at hbid
                    exact List.mem_of_find?_eq_some hbid
                  have hbidid : bid.id = bidId := by
                    unfold findBid at hbid
                    have := List.find?_some hbid
                    simpa using this
                  refine ⟨⟨bid, hbid, hb1e, hb4e, ?_, ?_⟩, ?_, ?_, ?_, ?_, ?_⟩
                  · exact List.mem_map.mpr ⟨bid, hbmem, by simp [hbidid]⟩
                  · simp [findEscrow, appendAudit]
                  · intro b hb hne hbinv hbst
                    exact List.mem_map.mpr ⟨b, hb, by simp [hne, hbinv, hbst]⟩
                  · intro b hb hne hor
                    refine List.mem_map.mpr ⟨b, hb, ?_⟩
                    rcases hor with h5 | h5 <;> simp [hne, h5]
                  · refine ⟨inv, hinv, ?_⟩
                    have h5 := find_invoice_update s.invoices invoiceId InvoiceStatus.Funded
                    have h6 : findInvoice s invoiceId
                        = s.invoices.find? (fun i => i.id = invoiceId) := rfl
                    rw [h6] at hinv
                    rw [hinv] at h5
                    have h7 : (some inv).map
                        (fun i => { i with status := InvoiceStatus.Funded })
                        = some { inv with status := InvoiceStatus.Funded } := rfl
                    rw [h7] at h5
                    exact h5
                  · intro caller2 bidId2
                    have hinvt : findInvoice
                        (appendAudit
                          { setInvoiceStatus
                              { s with bids := s.bids.map (fun b =>
                                  if b.id = bidId then { b with status := .Accepted }
                                  else if b.invoiceId = invoiceId ∧ b.status = .Placed then
                                    { b with status := .Rejected }
                                  else b) }
                              invoiceId .Funded with
                            escrows := ⟨invoiceId, bid.investor, bid.bidAmount, .Created⟩ ::
                              (setInvoiceStatus
                                { s with bids := s.bids.map (fun b =>
                                    if b.id = bidId then { b with status := .Accepted }
                                    else if b.invoiceId = invoiceId ∧ b.status = .Placed then
                                      { b with status := .Rejected }
                                    else b) }
                                invoiceId .Funded).escrows }
                          "BidAccepted" caller (some invoiceId))
                        invoiceId = some { inv with status := InvoiceStatus.Funded } := by
                      have h5 := find_invoice_update s.invoices invoiceId InvoiceStatus.Funded
                      have h6 : findInvoice s invoiceId
                          = s.invoices.find? (fun i => i.id = invoiceId) := rfl
                      rw [h6] at hinv
                      rw [hinv] at h5
                      have h7 : (some inv).map
                          (fun i => { i with status := InvoiceStatus.Funded })
                          = some { inv with status := InvoiceStatus.Funded } := rfl
                      rw [h7] at h5
                      exact h5
                    exact accept_bid_not_verified _ caller2 invoiceId bidId2
                      { inv with status := InvoiceStatus.Funded } hinvt (by simp)
                  · intro u c i bi e he
                    simp [applyOp, he, commit]

/-- The documented scenario one step before acceptance: verified
business, Verified invoice, one Placed bid. -/
def samplePreAccept : LedgerState :=
  [Op.verifyBusiness 1 10,
   Op.storeInvoice 100 10 10000 5 200 "invoice services" .Services [],
   Op.updateStatus 1 .Verified,
   Op.placeBid 101 20 1 9500 10500].foldl applyOp emptyLedger

/-- Witness for C2 at the concrete scenario: the acceptance succeeds
and any second acceptance on the now Funded invoice fails. -/
theorem accept_bid_spec_witness :
    accept_bid samplePreAccept 10 1 1 = .ok sampleFunded ∧
    (∃ e, accept_bid sampleFunded 99 1 1 = .error e) :=
  ⟨rfl, (accept_bid_spec samplePreAccept sampleFunded 10 1 1 rfl).2.2.2.2.1 99 1⟩


/-! ### C7: backup then restore reproduces the saved collections

Every operation except create_backup leaves the backup collection and
the backup counter untouched; create_backup prepends a backup carrying
the current counter value. -/

theorem submit_kyc_preserves (s t : LedgerState) (b : Nat) (d : String)
    (h : submit_kyc_application s b d = .ok t) :
    t.backups = s.backups ∧ t.nextBackupId = s.nextBackupId := by
  unfold submit_kyc_application at h
  injection h with h
  subst h
  exact ⟨rfl, rfl⟩

theorem verify_business_preserves (s t : LedgerState) (c b : Nat)
    (h : verify_business s c b = .ok t) :
    t.backups = s.backups ∧ t.nextBackupId = s.nextBackupId := by
  unfold verify_business at h
  split at h
  · simp at h
  · injection h with h
    subst h
    exact ⟨rfl, rfl⟩

theorem store_invoice_preserves (s t : LedgerState) (now business : Nat)
    (amount : Int) (currency dueDate : Nat) (description : String)
    (category : InvoiceCategory) (tags : List String) (id : Nat)
    (h : store_invoice s now business amount currency dueDate description category tags
      = .ok (t, id)) :
    t.backups = s.backups ∧ t.nextBackupId = s.nextBackupId := by
  unfold store_invoice at h
  split at h
  · simp at h
  split at h
  · simp at h
  split at h
  · simp at h
  split at h
  · simp at h
  simp only [Except.ok.injEq, Prod.mk.injEq] at h
  obtain ⟨h, _⟩ := h
  subst h
  exact ⟨rfl, rfl⟩

theorem update_invoice_status_preserves (s t : LedgerState) (id : Nat)
    (st : InvoiceStatus) (h : update_invoice_status s id st = .ok t) :
    t.backups = s.backups ∧ t.nextBackupId = s.nextBackupId := by
  unfold update_invoice_status at h
  split at h
  · simp at h
  next inv hinv =>
    split at h
    · injection h with h
      subst h
      exact ⟨rfl, rfl⟩
    · simp at h

theorem place_bid_preserves (s t : LedgerState) (now investor invoiceId : Nat)
    (bidAmount expectedReturn : Int) (id : Nat)
    (h : place_bid s now investor invoiceId bidAmount expectedReturn = .ok (t, id)) :
    t.backups = s.backups ∧ t.nextBackupId = s.nextBackupId := by
  unfold place_bid at h
  split at h
  · simp at h
  next inv hinv =>
    split at h
    · simp at h
    split at h
    · simp at h
    simp only [Except.ok.injEq, Prod.mk.injEq] at h
    obtain ⟨h, _⟩ := h
    subst h
    exact ⟨rfl, rfl⟩

theorem accept_bid_preserves (s t : LedgerState) (c invId bi : Nat)
    (h : accept_bid s c invId bi = .ok t) :
    t.backups = s.backups ∧ t.nextBackupId = s.nextBackupId := by
  unfold accept_bid at h
  split at h
  · simp at h
  next inv hinv =>
    split at h
    · simp at h
    next bid hbid =>
      split at h
      · simp at h
      split at h
      · simp at h
      split at h
      · simp at h
      split at h
      · simp at h
      split at h
      · simp at h
      next s3 hce =>
        injection h with h
        subst h
        unfold create_escrow at hce
        split at hce
        · simp at hce
        · injection hce with hce
          subst hce
          exact ⟨rfl, rfl⟩

theorem withdraw_bid_preserves (s t : LedgerState) (i bi : Nat)
    (h : withdraw_bid s i bi = .ok t) :
    t.backups = s.backups ∧ t.nextBackupId = s.nextBackupId := by
  unfold withdraw_bid at h
  split at h
  · simp at h
  next bid hbid =>
    split at h
    · simp at h
    split at h
    · simp at h
    injection h with h
    subst h
    exact ⟨rfl, rfl⟩

theorem release_preserves (s t : LedgerState) (invId : Nat)
    (h : release_escrow_funds s invId = .ok t) :
    t.backups = s.backups ∧ t.nextBackupId = s.nextBackupId := by
  unfold release_escrow_funds at h
  split at h
  · simp at h
  next esc hesc =>
    split at h
    · simp at h
    next hcr =>
      split at h
      · simp at h
      next inv hinv =>
        split at h
        · simp at h
        next helig =>
          injection h with h
          subst h
          exact ⟨rfl, rfl⟩

theorem refund_preserves (s t : LedgerState) (invId : Nat)
    (h : refund_escrow_funds s invId = .ok t) :
    t.backups = s.backups ∧ t.nextBackupId = s.nextBackupId := by
  unfold refund_escrow_funds at h
  split at h
  · simp at h
  next esc hesc =>
    split at h
    · simp at h
    next hcr =>
      split at h
      · simp at h
      next inv hinv =>
        split at h
        · simp at h
        next helig =>
          injection h with h
          subst h
          exact ⟨rfl, rfl⟩

theorem create_dispute_preserves (s t : LedgerState) (invId r : Nat) (reason : String)
    (h : create_dispute s invId r reason = .ok t) :
    t.backups = s.backups ∧ t.nextBackupId = s.nextBackupId := by
  unfold create_dispute at h
  split at h
  · simp at h
  next inv hinv =>
    split at h
    · simp at h
    split at h
    · simp at h
    split at h
    · simp at h
    injection h with h
    subst h
    exact ⟨rfl, rfl⟩

theorem resolve_dispute_preserves (s t : LedgerState) (now c invId : Nat)
    (o : DisputeOutcome) (h : resolve_dispute s now c invId o = .ok t) :
    t.backups = s.backups ∧ t.nextBackupId = s.nextBackupId := by
  unfold resolve_dispute at h
  split at h
  · simp at h
  split at h
  · simp at h
  next d hd =>
    cases o with
    | FavorBusiness =>
      have h4 : release_escrow_funds
          (resolveDisputeRecord s now c invId .FavorBusiness) invId = .ok t := h
      exact release_preserves (resolveDisputeRecord s now c invId .FavorBusiness) t invId h4
    | FavorInvestor =>
      have h4 : refund_escrow_funds
          (resolveDisputeRecord s now c invId .FavorInvestor) invId = .ok t := h
      exact refund_preserves (resolveDisputeRecord s now c invId .FavorInvestor) t invId h4

theorem restore_preserves (s t : LedgerState) (id : Nat) (h : restore s id = .ok t) :
    t.backups = s.backups ∧ t.nextBackupId = s.nextBackupId := by
  unfold restore at h
  split at h
  · simp at h
  next b hb =>
    injection h with h
    subst h
    exact ⟨rfl, rfl⟩

theorem commit_backup_lookup (s : LedgerState) (r : Except QuickLendXError LedgerState)
    (b : Backup) (h1 : findBackup s b.id = some b) (h2 : b.id < s.nextBackupId)
    (hp : ∀ t, r = .ok t → t.backups = s.backups ∧ t.nextBackupId = s.nextBackupId) :
    findBackup (commit s r) b.id = some b ∧ b.id < (commit s r).nextBackupId := by
  cases r with
  | error e => exact ⟨h1, h2⟩
  | ok t =>
    obtain ⟨hb, hn⟩ := hp t rfl
    simp only [commit]
    unfold findBackup at h1 ⊢
    rw [hb, hn]
    exact ⟨h1, h2⟩

theorem commitPair_backup_lookup (s : LedgerState)
    (r : Except QuickLendXError (LedgerState × Nat)) (b : Backup)
    (h1 : findBackup s b.id = some b) (h2 : b.id < s.nextBackupId)
    (hp : ∀ t id, r = .ok (t, id) →
      t.backups = s.backups ∧ t.nextBackupId = s.nextBackupId) :
    findBackup (commitPair s r) b.id = some b ∧ b.id < (commitPair s r).nextBackupId := by
  cases r with
  | error e => exact ⟨h1, h2⟩
  | ok p =>
    obtain ⟨hb, hn⟩ := hp p.1 p.2 rfl
    simp only [commitPair]
    unfold findBackup at h1 ⊢
    rw [hb, hn]
    exact ⟨h1, h2⟩

theorem applyOp_backup_lookup (s : LedgerState) (op : Op) (b : Backup)
    (h1 : findBackup s b.id = some b) (h2 : b.id < s.nextBackupId) :
    findBackup (applyOp s op) b.id = some b ∧ b.id < (applyOp s op).nextBackupId := by
  cases op with
  | submitKyc x y =>
    exact commit_backup_lookup s _ b h1 h2
      (fun t ht => submit_kyc_preserves s t x y ht)
  | verifyBusiness c x =>
    exact commit_backup_lookup s _ b h1 h2
      (fun t ht => verify_business_preserves s t c x ht)
  | storeInvoice now x amt cur due descr cat tags =>
    exact commitPair_backup_lookup s _ b h1 h2
      (fun t id ht => store_invoice_preserves s t now x amt cur due descr cat tags id ht)
  | updateStatus id st =>
    exact commit_backup_lookup s _ b h1 h2
      (fun t ht => update_invoice_status_preserves s t id st ht)
  | placeBid now i invId amt ret =>
    exact commitPair_backup_lookup s _ b h1 h2
      (fun t id ht => place_bid_preserves s t now i invId amt ret id ht)
  | acceptBid c invId bi =>
    exact commit_backup_lookup s _ b h1 h2
      (fun t ht => accept_bid_preserves s t c invId bi ht)
  | withdrawBid i bi =>
    exact commit_backup_lookup s _ b h1 h2
      (fun t ht => withdraw_bid_preserves s t i bi ht)
  | releaseEscrow invId =>
    exact commit_backup_lookup s _ b h1 h2
      (fun t ht => release_preserves s t invId ht)
  | refundEscrow invId =>
    exact commit_backup_lookup s _ b h1 h2
      (fun t ht => refund_preserves s t invId ht)
  | createDispute invId r reason =>
    exact commit_backup_lookup s _ b h1 h2
      (fun t ht => create_dispute_preserves s t invId r reason ht)
  | resolveDispute now c invId o =>
    exact commit_backup_lookup s _ b h1 h2
      (fun t ht => resolve_dispute_preserves s t now c invId o ht)
  | restoreBackup id =>
    exact commit_backup_lookup s _ b h1 h2
      (fun t ht => restore_preserves s t id ht)
  | createBackup now d =>
    have hne : b.id ≠ s.nextBackupId := by omega
    constructor
    · show List.find? (fun x => x.id = b.id)
        ((⟨s.nextBackupId, now, d, snapshotOf s⟩ : Backup) :: s.backups) = some b
      rw [List.find?_cons_of_neg]
      · exact h1
      · simpa using fun hc => hne hc.symm
    · show b.id < s.nextBackupId + 1
      omega

theorem foldl_backup_lookup (ops : List Op) :
    ∀ (u : LedgerState) (b : Backup), findBackup u b.id = some b →
      b.id < u.nextBackupId →
      findBackup (ops.foldl applyOp u) b.id = some b ∧
      b.id < (ops.foldl applyOp u).nextBackupId := by
  induction ops with
  | nil => intro u b hb hn; exact ⟨hb, hn⟩
  | cons op rest ih =>
    intro u b hb hn
    have h3 := applyOp_backup_lookup u op b hb hn
    exact ih (applyOp u op) b h3.1 h3.2

/-- C7: create_backup followed, after any sequence of ledger
operations, by restore with the returned id restores the Invoice, Bid,
Escrow, and Dispute collections to exactly their state at backup time;
restore with an unknown backup id fails with BackupNotFound and leaves
the state untouched. -/
theorem backup_restore_roundtrip (s : LedgerState) (now : Nat) (descr : String)
    (ops : List Op) :
    (∃ t, restore (ops.foldl applyOp (create_backup s now descr).1)
            (create_backup s now descr).2 = .ok t ∧
          t.invoices = s.invoices ∧ t.bids = s.bids ∧
          t.escrows = s.escrows ∧ t.disputes = s.disputes) ∧
    (∀ (u : LedgerState) (badId : Nat), findBackup u badId = none →
        restore u badId = .error .BackupNotFound ∧
        applyOp u (.restoreBackup badId) = u) := by
  constructor
  · have hstart : findBackup (create_backup s now descr).1
        (⟨s.nextBackupId, now, descr, snapshotOf s⟩ : Backup).id
        = some ⟨s.nextBackupId, now, descr, snapshotOf s⟩ := by
      show List.find? (fun x => x.id = (⟨s.nextBackupId, now, descr, snapshotOf s⟩ : Backup).id)
        ((⟨s.nextBackupId, now, descr, snapshotOf s⟩ : Backup) :: s.backups) = _
      rw [List.find?_cons_of_pos]
      simp
    have hlt : (⟨s.nextBackupId, now, descr, snapshotOf s⟩ : Backup).id
        < (create_backup s now descr).1.nextBackupId := by
      show s.nextBackupId < s.nextBackupId + 1
      omega
    have hfold := foldl_backup_lookup ops (create_backup s now descr).1
      ⟨s.nextBackupId, now, descr, snapshotOf s⟩ hstart hlt
    have h2id : (create_backup s now descr).2
        = (⟨s.nextBackupId, now, descr, snapshotOf s⟩ : Backup).id := rfl
    unfold restore
    rw [h2id, hfold.1]
    exact ⟨_, rfl, rfl, rfl, rfl, rfl⟩
  · intro u badId hnone
    have hr : restore u badId = .error .BackupNotFound := by
      unfold restore
      rw [hnone]
    exact ⟨hr, by simp [applyOp, hr, commit]⟩

/-- Witness for C7 at the empty ledger: restore with an unknown id is
rejected and changes nothing. -/
theorem backup_restore_roundtrip_witness :
    restore emptyLedger 42 = .error .BackupNotFound ∧
    applyOp emptyLedger (.restoreBackup 42) = emptyLedger :=
  (backup_restore_roundtrip emptyLedger 50 "snapshot one" []).2 emptyLedger 42 rfl


end QuickLendX
